import Mathlib

/-!
Verification of the dynamicGCE repository: a shallow embedding of
`AdaptiveGCE` (fit / explain / transform_data / per-class training loop),
the `GCNEncoder` forward pass, and `DynamicEvaluator.evaluate`,
together with theorems settling the specification claims.

Conventions of the embedding:
* the filesystem is a list of structured paths (`PathM`): `os.path.exists`
  is membership, `os.mkdir` and `torch.save` append;
* Python exceptions are modelled by returning the mutated state so far
  together with an abort marker, since Python exceptions leave prior
  mutations in place;
* numeric tensor payloads use `ℚ` (edge weights, features) and `ℤ`
  (graph labels); the torch training step itself is abstracted into a
  per-class success predicate `trainOk`, since whether gradient descent
  raises is a property of the numerics, not of the control flow under
  verification.
-/

namespace DynamicGCE

/-- A graph instance as consumed by `AdaptiveGCE.transform_data`:
`to_numpy_array` (dense weighted adjacency), `features`, `graph_label`. -/
structure InstanceM where
  adjacency : List (List ℚ)
  features : List (List ℚ)
  graph_label : ℤ
deriving DecidableEq, Inhabited

/-- The `Dataset` collaborator interface consumed by the explainer:
`instances`, `name`, `get_classes()`, `get_split_indices()`
(`splitIndices` maps a fold id to its train-index list; the test split is
never read by this code path, so it is omitted). -/
structure DatasetM where
  name : String
  instances : List InstanceM
  splitIndices : List (List Nat)
  classes : List ℤ
deriving DecidableEq, Inhabited

/-- The oracle is passed through `fit`/`explain` but never invoked by
the code under verification; it is opaque. -/
structure OracleM where
  tag : Nat
deriving DecidableEq, Inhabited

/-- A filesystem path: either the checkpoint directory created by
`os.mkdir(explainer_uri)`, or the per-class weight file written by
`save_autoencoder` at `os.path.join(store, name, "autoencoder_" ++ cls)`.
The class index is kept structured; distinct indices give distinct file
names in the source. -/
inductive PathM where
  | dir (uri : String)
  | autoencoderFile (dirUri : String) (cls : Nat)
deriving DecidableEq

/-- State of one autoencoder of the ensemble: fresh random weights,
trained during this fit on a named dataset, or loaded from a checkpoint
directory. -/
inductive AEW where
  | init
  | trainedOn (dsName : String)
  | loadedFrom (uri : String)
deriving DecidableEq

/-- The mutable state of one `AdaptiveGCE` instance together with the
persistence backend it touches: configuration fields fixed at
construction (`storePath`, `foldId`, `numClasses`), the `_fitted` flag,
the `name` attribute set by `fit`, the per-class autoencoder ensemble,
and the filesystem. -/
structure World where
  storePath : String
  foldId : Nat
  numClasses : Nat
  fitted : Bool
  name : String
  autoencoders : List AEW
  fs : List PathM
deriving DecidableEq

/-- Modelled from the spec: the identity string uses the "explainer class
name" (`self.__class__.name`); the class attribute `name` is declared in
the `Explainer` base, which is outside the provided sources. -/
def explainerClassName : String := "AdaptiveGCE"

/-- The identity string computed at the top of `fit`. -/
def explainerName (dsName : String) (foldId : Nat) : String :=
  explainerClassName ++ "_fit_on_" ++ dsName ++ "_fold_id_" ++ toString foldId

/-- os.path.join of two components. -/
def pathJoin (a b : String) : String := a ++ "/" ++ b

/-- The checkpoint directory URI for a given store path and identity. -/
def explainerUri (storePath dsName : String) (foldId : Nat) : String :=
  pathJoin storePath (explainerName dsName foldId)

/-- The initial world for a freshly constructed `AdaptiveGCE`:
`_fitted = False`, one untrained autoencoder per class, over a given
filesystem. -/
def initWorld (storePath : String) (foldId numClasses : Nat) (fs : List PathM) : World :=
  { storePath := storePath, foldId := foldId, numClasses := numClasses,
    fitted := false, name := "", autoencoders := List.replicate numClasses .init,
    fs := fs }

/-- Modelled from the spec: `load_explainers` (declared outside the
provided sources) loads the ensemble weights from the checkpoint
directory, failing if an expected per-class weight file is missing. -/
def loadExplainers (w : World) (uri : String) : Option World :=
  if (List.range w.numClasses).all (fun c => w.fs.contains (PathM.autoencoderFile uri c)) then
    some { w with autoencoders := (List.range w.numClasses).map (fun _ => AEW.loadedFrom uri) }
  else
    none

/-- One record of the `Data` objects built by `transform_data`:
node features `x`, label `y`, the non-zero index pairs (`edge_index`,
kept as a list of pairs; the source stores the transpose `a.T` of the
same data), and the gathered edge weights `edge_attr`. -/
structure DataM where
  x : List (List ℚ)
  y : ℤ
  edge_index : List (Nat × Nat)
  edge_attr : List ℚ
deriving DecidableEq

/-- The entry of a dense matrix at a position (0 outside the lists). -/
def entryD (A : List (List ℚ)) (i j : Nat) : ℚ :=
  (A.getD i []).getD j 0

/-- The non-zero positions of one matrix row, in column order. -/
def rowNonzero (A : List (List ℚ)) (i : Nat) : List (Nat × Nat) :=
  (List.range (A.getD i []).length).filterMap
    (fun j => if entryD A i j ≠ 0 then some (i, j) else none)

/-- torch.nonzero on a dense matrix: the positions of non-zero entries
in row-major order. -/
def nonzeroIdx (A : List (List ℚ)) : List (Nat × Nat) :=
  (List.range A.length).flatMap (fun i => rowNonzero A i)

/-- Gathering `w[a[:,0], a[:,1]]`: the matrix values at a list of index
pairs. -/
def gatherVals (A : List (List ℚ)) (idx : List (Nat × Nat)) : List ℚ :=
  idx.map (fun p => entryD A p.1 p.2)

/-- The number of non-zero entries of a dense matrix. -/
def countNonzero (A : List (List ℚ)) : Nat :=
  (A.map (fun row => row.countP (fun v => v ≠ 0))).sum

/-- Writing one value at a position of a dense matrix (a no-op outside
the matrix). -/
def setEntry (M : List (List ℚ)) (i j : Nat) (v : ℚ) : List (List ℚ) :=
  M.set i ((M.getD i []).set j v)

/-- The n-by-m zero matrix. -/
def zeroMat (n m : Nat) : List (List ℚ) :=
  List.replicate n (List.replicate m 0)

/-- Scattering an edge-weight list back to the indexed positions of the
n-by-m zero matrix (the reconstruction direction of the sparse
round-trip). -/
def scatterDense (n m : Nat) (idx : List (Nat × Nat)) (vals : List ℚ) : List (List ℚ) :=
  (idx.zip vals).foldl (fun M pv => setEntry M pv.1.1 pv.1.2 pv.2) (zeroMat n m)

/-- The `Data` sample `transform_data` builds from one instance. -/
def mkData (inst : InstanceM) : DataM :=
  { x := inst.features, y := inst.graph_label,
    edge_index := nonzeroIdx inst.adjacency,
    edge_attr := gatherVals inst.adjacency (nonzeroIdx inst.adjacency) }

/-- Appending a sample to the bucket of its label inside the per-class
dict `data_dict_cls`; `none` models the `KeyError` raised when the label
was not among `dataset.get_classes()`. -/
def addToBucket (buckets : List (ℤ × List DataM)) (lab : ℤ) (d : DataM) :
    Option (List (ℤ × List DataM)) :=
  match buckets with
  | [] => none
  | (c, l) :: rest =>
      if c = lab then some ((c, l ++ [d]) :: rest)
      else (addToBucket rest lab d).map (fun r => (c, l) :: r)

/-- `AdaptiveGCE.transform_data`: select the fold's train instances,
convert each dense adjacency to a sparse pair, and bucket samples by
graph label into one collection per class (the per-class DataLoaders,
represented by their sample lists in insertion order). -/
def transformData (ds : DatasetM) (foldId : Nat) : Option (List (ℤ × List DataM)) :=
  let indices := ds.splitIndices.getD foldId []
  let sel := indices.map (fun i => ds.instances.getD i default)
  let init := ds.classes.map (fun c => (c, ([] : List DataM)))
  sel.foldlM (fun buckets inst => addToBucket buckets inst.graph_label (mkData inst)) init

/-- The per-class training loop of `__fit`, iterating classes in order:
reads `optimisers[cls]` (an index error aborts when `cls` is at or past
`numClasses`), trains for the configured epochs (a raise during training
is a `trainOk cls = false`), then `save_autoencoder` writes the class's
weight file. Returns the mutated world and `some cls` when an exception
aborted the loop at class `cls`. -/
def trainLoop (trainOk : Nat → Bool) (dsName uri : String) :
    Nat → Nat → World → World × Option Nat
  | 0, _, w => (w, none)
  | remaining + 1, cls, w =>
      if cls < w.numClasses then
        if trainOk cls then
          trainLoop trainOk dsName uri remaining (cls + 1)
            { w with autoencoders := w.autoencoders.set cls (.trainedOn dsName),
                     fs := w.fs ++ [PathM.autoencoderFile uri cls] }
        else (w, some cls)
      else (w, some cls)

/-- The observable outcome of one `fit` call. -/
inductive FitEvent where
  | loaded
  | loadFailed
  | dataError
  | trained
  | trainFailed (cls : Nat)
deriving DecidableEq

/-- `AdaptiveGCE.fit`: compute the identity string and set `self.name`;
if the checkpoint directory exists, load the ensemble weights; else
create the directory and run `__fit` (transform the data, then the
per-class training loop); `_fitted = True` runs only when no exception
escaped. The oracle is received but never used. -/
def fitRun (trainOk : Nat → Bool) (_oracle : OracleM) (ds : DatasetM)
    (foldId : Nat) (w : World) : World × FitEvent :=
  let nm := explainerName ds.name foldId
  let uri := pathJoin w.storePath nm
  let w1 := { w with name := nm }
  if PathM.dir uri ∈ w1.fs then
    match loadExplainers w1 uri with
    | some w2 => ({ w2 with fitted := true }, .loaded)
    | none => (w1, .loadFailed)
  else
    let w2 := { w1 with fs := w1.fs ++ [PathM.dir uri] }
    match transformData ds foldId with
    | none => (w2, .dataError)
    | some loaders =>
        match trainLoop trainOk ds.name uri loaders.length 0 w2 with
        | (w3, none) => ({ w3 with fitted := true }, .trained)
        | (w3, some c) => (w3, .trainFailed c)

/-- `AdaptiveGCE.explain`: when `_fitted` is false, call
`fit(oracle, dataset, self.fold_id)`; then return the instance unchanged.
The boolean reports whether `fit` was invoked; the `FitEvent` is `none`
when `fit` was skipped. -/
def explainRun (trainOk : Nat → Bool) (inst : InstanceM) (oracle : OracleM)
    (ds : DatasetM) (w : World) : World × InstanceM × Bool × Option FitEvent :=
  if w.fitted then (w, inst, false, none)
  else
    let (w1, ev) := fitRun trainOk oracle ds w.foldId w
    (w1, inst, true, some ev)

/-! Dynamic evaluator: `DynamicEvaluator.evaluate` iterates the dynamic
graph's time keys, rebinds the explainer iteration and the active
dataset, delegates to the base evaluator once, and breaks. -/

/-- One invocation of the inherited single-snapshot evaluation protocol,
recording the explainer iteration counter and the bound dataset at call
time. -/
structure EvalCall where
  iteration : ℤ
  snapshot : DatasetM
deriving DecidableEq

/-- The evaluator state mutated by `evaluate`: `self._explainer.iteration`
and `self._data`. -/
structure EvalState where
  explIteration : ℤ
  data : DatasetM
deriving DecidableEq

/-- Python `min` over a key list: `none` models the `ValueError` on an
empty collection. -/
def minKey : List ℤ → Option ℤ
  | [] => none
  | t :: rest => some (rest.foldl min t)

/-- The body of the `for time in self.dyn_graph.keys()` loop: set the
explainer iteration to `time - begin_time`, rebind `self._data`, invoke
the base `evaluate`, then `break` — so at most the first entry is
processed. Returns the final state and the trace of base-evaluator
invocations. -/
def evalLoop (beginTime : ℤ) (dg : List (ℤ × DatasetM)) (s : EvalState) :
    EvalState × List EvalCall :=
  match dg with
  | [] => (s, [])
  | (t, d) :: _ =>
      ({ explIteration := t - beginTime, data := d },
       [{ iteration := t - beginTime, snapshot := d }])

/-- `DynamicEvaluator.evaluate`: compute `begin_time = min(keys)` (raising
on an empty dynamic graph), then run the loop. The dynamic graph is the
insertion-ordered key/snapshot association list of `data.dynamic_graph`. -/
def dynEvaluate (dg : List (ℤ × DatasetM)) (s : EvalState) :
    Option (EvalState × List EvalCall) :=
  match minKey (dg.map Prod.fst) with
  | none => none
  | some b => some (evalLoop b dg s)

/-! GCN encoder: tensors as dimension-tagged entry functions over `ℝ`;
the graph-convolution layers themselves are the capability the spec
assumes ("a GNN encoder capability mapping (node features, edges, edge
weights) to node embeddings"), so a layer is a function together with its
configured channel counts and a well-formedness contract. -/

/-- A dense 2-d tensor: row and column counts plus a total entry
function. -/
structure Tensor2 where
  rows : Nat
  cols : Nat
  entry : Nat → Nat → ℝ

/-- A `GCNConv(in_channels, out_channels)` layer: the configured channel
counts and the layer function on (features, edge_index, edge_weight). -/
structure ConvLayer where
  cin : Nat
  cout : Nat
  apply : Tensor2 → List (Nat × Nat) → List ℝ → Tensor2

/-- The capability contract of a graph-convolution layer: on an input
with the configured number of input channels it preserves the node count
and produces the configured number of output channels. -/
def ConvLayer.Wf (c : ConvLayer) : Prop :=
  ∀ x e w, x.cols = c.cin →
    (c.apply x e w).rows = x.rows ∧ (c.apply x e w).cols = c.cout

/-- `F.leaky_relu(x, negative_slope=.2)` applied entrywise:
`max 0 v + 0.2 * min 0 v`. -/
noncomputable def leakyReluT (t : Tensor2) : Tensor2 :=
  { t with entry := fun i j => max 0 (t.entry i j) + 0.2 * min 0 (t.entry i j) }

/-- `F.dropout(x, p, training)` with the random keep-mask made explicit:
in training mode the entries are multiplied by the mask and rescaled by
`1 / (1 - p)`; otherwise the input is returned unchanged. -/
noncomputable def dropoutT (p : ℝ) (training : Bool) (mask : Nat → Nat → ℝ)
    (t : Tensor2) : Tensor2 :=
  if training then
    { t with entry := fun i j => t.entry i j * mask i j / (1 - p) }
  else t

/-- `torch.tanh` applied entrywise. -/
noncomputable def tanhT (t : Tensor2) : Tensor2 :=
  { t with entry := fun i j => Real.tanh (t.entry i j) }

/-- The `GCNEncoder` module state: its three convolution layers and its
`training` attribute. The attribute named `training` is the standard
`nn.Module` training flag; the constructor assigns `False` to it. -/
structure GCNEncoderM where
  conv1 : ConvLayer
  conv2 : ConvLayer
  conv3 : ConvLayer
  training : Bool

/-- `GCNEncoder.__init__(in_channels, out_channels)` given a layer
factory for `GCNConv`: conv1 maps in to out channels, conv2 out to out,
conv3 out back to in, and `self.training = False`. -/
def GCNEncoderM.init (mk : Nat → Nat → ConvLayer) (inCh outCh : Nat) : GCNEncoderM :=
  { conv1 := mk inCh outCh, conv2 := mk outCh outCh, conv3 := mk outCh inCh,
    training := false }

/-- `GCNEncoder.set_training`. -/
def GCNEncoderM.setTraining (enc : GCNEncoderM) (training : Bool) : GCNEncoderM :=
  { enc with training := training }

/-- First stage of `GCNEncoder.forward`: conv1, leaky relu, dropout
(dropout gated by the module's `training` attribute, with `m1` its
keep-mask). -/
noncomputable def stage1 (enc : GCNEncoderM) (m1 : Nat → Nat → ℝ) (x : Tensor2)
    (e : List (Nat × Nat)) (w : List ℝ) : Tensor2 :=
  dropoutT 0.2 enc.training m1 (leakyReluT (enc.conv1.apply x e w))

/-- Second stage of `GCNEncoder.forward`: conv2 on the first stage's
output, leaky relu, dropout. -/
noncomputable def stage2 (enc : GCNEncoderM) (m1 m2 : Nat → Nat → ℝ) (x : Tensor2)
    (e : List (Nat × Nat)) (w : List ℝ) : Tensor2 :=
  dropoutT 0.2 enc.training m2 (leakyReluT (enc.conv2.apply (stage1 enc m1 x e w) e w))

/-- `GCNEncoder.forward`: the two dropout-regularised stages followed by
conv3 and the entrywise hyperbolic tangent. -/
noncomputable def GCNEncoderM.forward (enc : GCNEncoderM) (m1 m2 : Nat → Nat → ℝ)
    (x : Tensor2) (e : List (Nat × Nat)) (w : List ℝ) : Tensor2 :=
  tanhT (enc.conv3.apply (stage2 enc m1 m2 x e w) e w)

/-- The `GAE` autoencoder module as far as module training mode is
concerned: it registers the encoder as a child module, and carries its
own `nn.Module` training flag. -/
structure GAEM where
  encoder : GCNEncoderM
  training : Bool

/-- `nn.Module.train(mode)` on the autoencoder, per the framework's
documented semantics: sets the module's own `training` flag and
recursively sets the flag of every child module — in particular the
registered encoder. -/
def GAEM.train (g : GAEM) (mode : Bool) : GAEM :=
  { training := mode, encoder := { g.encoder with training := mode } }

/-- The prologue of the per-class training loop in `AdaptiveGCE.__fit`:
`autoencoder.train()`, i.e. `nn.Module.train(True)` on the `GAE`. -/
def fitTrainPrologue (g : GAEM) : GAEM := g.train true

/-- The per-batch loss computation inside the epoch loop of
`AdaptiveGCE.__fit`, with the autoencoder's `encode` and `recon_loss`
abstract: the features argument passed to `encode` is the literal
`torch.FloatTensor([])` — the empty tensor `[]` — not the batch's `x`,
and `recon_loss` receives the latent code and the batch's `edge_index`. -/
def batchLoss (encode : List (List ℚ) → List (Nat × Nat) → List ℚ → List (List ℚ))
    (reconLoss : List (List ℚ) → List (Nat × Nat) → ℚ) (item : DataM) : ℚ :=
  reconLoss (encode [] item.edge_index item.edge_attr) item.edge_index

/-- A concrete well-formed convolution layer used to instantiate the
encoder capability in witnesses: all entries one, shapes as configured. -/
noncomputable def constConv (a b : Nat) : ConvLayer :=
  { cin := a, cout := b,
    apply := fun x _ _ => { rows := x.rows, cols := b, entry := fun _ _ => 1 } }

/-! Helper lemmas. -/

theorem foldl_min_of_le (l : List ℤ) (a : ℤ) (h : ∀ x ∈ l, a ≤ x) :
    l.foldl min a = a := by
  induction l with
  | nil => rfl
  | cons b t ih =>
      have hab : min a b = a := min_eq_left (h b (by simp))
      simpa [hab] using ih (fun x hx => h x (by simp [hx]))

@[simp] theorem leakyReluT_rows (t : Tensor2) : (leakyReluT t).rows = t.rows := rfl

@[simp] theorem leakyReluT_cols (t : Tensor2) : (leakyReluT t).cols = t.cols := rfl

@[simp] theorem dropoutT_rows (p : ℝ) (tr : Bool) (m : Nat → Nat → ℝ) (t : Tensor2) :
    (dropoutT p tr m t).rows = t.rows := by cases tr <;> rfl

@[simp] theorem dropoutT_cols (p : ℝ) (tr : Bool) (m : Nat → Nat → ℝ) (t : Tensor2) :
    (dropoutT p tr m t).cols = t.cols := by cases tr <;> rfl

@[simp] theorem tanhT_rows (t : Tensor2) : (tanhT t).rows = t.rows := rfl

@[simp] theorem tanhT_cols (t : Tensor2) : (tanhT t).cols = t.cols := rfl

@[simp] theorem tanhT_entry (t : Tensor2) (i j : Nat) :
    (tanhT t).entry i j = Real.tanh (t.entry i j) := rfl

theorem tanh_le_one (y : ℝ) : Real.tanh y ≤ 1 := by
  rw [Real.tanh_eq_sinh_div_cosh, div_le_one (Real.cosh_pos y)]
  have h1 := Real.cosh_sub_sinh y
  have h2 := Real.exp_pos (-y)
  linarith

theorem neg_one_le_tanh (y : ℝ) : -1 ≤ Real.tanh y := by
  rw [Real.tanh_eq_sinh_div_cosh, le_div_iff₀ (Real.cosh_pos y)]
  have h1 := Real.cosh_add_sinh y
  have h2 := Real.exp_pos y
  linarith

/-! Claim theorems: dynamic evaluator. -/

/-- C3: for every dynamic dataset whose dynamic graph has at least one
time key, a single `DynamicEvaluator.evaluate` call invokes the inherited
single-snapshot evaluation protocol exactly once — the trace of base
evaluations has length one no matter how many keys exist. -/
theorem dynamic_evaluator_single_snapshot (dg : List (ℤ × DatasetM)) (s : EvalState)
    (hne : dg ≠ []) :
    ∃ s2 c, dynEvaluate dg s = some (s2, [c]) := by
  match dg, hne with
  | (t, d) :: rest, _ => exact ⟨_, _, rfl⟩

/-- Witness for C3 at the spec's example key set 5, 8, 13. -/
theorem dynamic_evaluator_single_snapshot_witness :
    ([((5 : ℤ), ({ name := "a", instances := [], splitIndices := [], classes := [] } : DatasetM)),
      (8, { name := "b", instances := [], splitIndices := [], classes := [] }),
      (13, { name := "c", instances := [], splitIndices := [], classes := [] })] ≠
        ([] : List (ℤ × DatasetM)))
    ∧ ∃ s2 c,
        dynEvaluate
          [((5 : ℤ), ({ name := "a", instances := [], splitIndices := [], classes := [] } : DatasetM)),
           (8, { name := "b", instances := [], splitIndices := [], classes := [] }),
           (13, { name := "c", instances := [], splitIndices := [], classes := [] })]
          { explIteration := 7, data := { name := "z", instances := [], splitIndices := [], classes := [] } } =
          some (s2, [c]) :=
  ⟨by decide,
   dynamic_evaluator_single_snapshot _ _ (by decide)⟩

/-- C4: when the dynamic graph's keys are in ascending order (the spec's
ordered-mapping invariant), `evaluate` begins at the minimum key: the
explainer's iteration counter is set to 0 (minimum key minus itself) and
the active dataset is rebound to the snapshot stored at the minimum key
before the one processed base evaluation. -/
theorem dynamic_evaluator_starts_at_min (dg : List (ℤ × DatasetM)) (s : EvalState)
    (hne : dg ≠ []) (hsorted : (dg.map Prod.fst).Sorted (· ≤ ·)) :
    ∃ t d rest, dg = (t, d) :: rest
      ∧ minKey (dg.map Prod.fst) = some t
      ∧ dg.lookup t = some d
      ∧ dynEvaluate dg s =
          some ({ explIteration := 0, data := d }, [{ iteration := 0, snapshot := d }]) := by
  match dg, hne with
  | (t, d) :: rest, _ =>
    have hpair : (∀ b ∈ rest.map Prod.fst, t ≤ b) ∧ (rest.map Prod.fst).Sorted (· ≤ ·) :=
      List.sorted_cons.mp hsorted
    refine ⟨t, d, rest, rfl, ?_, ?_, ?_⟩
    · simp [minKey, foldl_min_of_le _ _ hpair.1]
    · simp [List.lookup]
    · simp [dynEvaluate, minKey, foldl_min_of_le _ _ hpair.1, evalLoop]

/-- Witness for C4 at the spec's example key set 5, 8, 13. -/
theorem dynamic_evaluator_starts_at_min_witness :
    (([((5 : ℤ), ({ name := "a", instances := [], splitIndices := [], classes := [] } : DatasetM)),
       (8, { name := "b", instances := [], splitIndices := [], classes := [] }),
       (13, { name := "c", instances := [], splitIndices := [], classes := [] })] ≠
         ([] : List (ℤ × DatasetM)))
      ∧ ([((5 : ℤ), ({ name := "a", instances := [], splitIndices := [], classes := [] } : DatasetM)),
          (8, { name := "b", instances := [], splitIndices := [], classes := [] }),
          (13, { name := "c", instances := [], splitIndices := [], classes := [] })].map Prod.fst).Sorted (· ≤ ·))
    ∧ ∃ t d rest,
        ([((5 : ℤ), ({ name := "a", instances := [], splitIndices := [], classes := [] } : DatasetM)),
          (8, { name := "b", instances := [], splitIndices := [], classes := [] }),
          (13, { name := "c", instances := [], splitIndices := [], classes := [] })] : List (ℤ × DatasetM)) = (t, d) :: rest
        ∧ minKey ([((5 : ℤ), ({ name := "a", instances := [], splitIndices := [], classes := [] } : DatasetM)),
            (8, { name := "b", instances := [], splitIndices := [], classes := [] }),
            (13, { name := "c", instances := [], splitIndices := [], classes := [] })].map Prod.fst) = some t
        ∧ ([((5 : ℤ), ({ name := "a", instances := [], splitIndices := [], classes := [] } : DatasetM)),
            (8, { name := "b", instances := [], splitIndices := [], classes := [] }),
            (13, { name := "c", instances := [], splitIndices := [], classes := [] })] : List (ℤ × DatasetM)).lookup t = some d
        ∧ dynEvaluate
            [((5 : ℤ), ({ name := "a", instances := [], splitIndices := [], classes := [] } : DatasetM)),
             (8, { name := "b", instances := [], splitIndices := [], classes := [] }),
             (13, { name := "c", instances := [], splitIndices := [], classes := [] })]
            { explIteration := 7, data := { name := "z", instances := [], splitIndices := [], classes := [] } } =
            some ({ explIteration := 0, data := d }, [{ iteration := 0, snapshot := d }]) :=
  ⟨⟨by decide, by decide⟩,
   dynamic_evaluator_starts_at_min _ _ (by decide) (by decide)⟩

/-! Claim theorems: GCN encoder. -/

/-- C8 counterexample: the claim asserts the encoder's training flag is
independent of the framework's module flag, so that putting the enclosing
autoencoder into training mode (as `__fit` does via `autoencoder.train()`)
does not activate dropout. In fact the attribute `self.training` assigned
in `GCNEncoder.__init__` is the `nn.Module` flag itself, which
`nn.Module.train` propagates to child modules: after the training loop's
prologue the encoder flag is true and the dropout mask changes the stage
output (entry 0 0 drops from 1 to 0 under an all-zero keep-mask), while
the un-prologued encoder ignores the mask. -/
theorem gcn_dropout_framework_coupling_counterexample :
    (fitTrainPrologue { encoder := GCNEncoderM.init constConv 1 64, training := true }).encoder.training = true
    ∧ (stage1 (fitTrainPrologue { encoder := GCNEncoderM.init constConv 1 64, training := true }).encoder
        (fun _ _ => 0) { rows := 1, cols := 1, entry := fun _ _ => 1 } [] []).entry 0 0 = 0
    ∧ (stage1 (GCNEncoderM.init constConv 1 64)
        (fun _ _ => 0) { rows := 1, cols := 1, entry := fun _ _ => 1 } [] []).entry 0 0 = 1 := by
  refine ⟨rfl, ?_, ?_⟩ <;>
    simp [stage1, dropoutT, leakyReluT, fitTrainPrologue, GAEM.train,
      GCNEncoderM.init, constConv]

/-- C8 amended: dropout after the first two convolutions is applied if
and only if the encoder's `training` flag is true, and that flag — the
framework's module training flag, initialized to false by the constructor
— is set to true by putting the enclosing autoencoder module into
framework training mode, as the ensemble's training loop does. -/
theorem gcn_dropout_iff_training_flag (enc : GCNEncoderM) (m1 : Nat → Nat → ℝ)
    (x : Tensor2) (e : List (Nat × Nat)) (w : List ℝ) (i j : Nat) (g : GAEM)
    (mk : Nat → Nat → ConvLayer) (inCh outCh : Nat) :
    (GCNEncoderM.init mk inCh outCh).training = false
    ∧ ((stage1 enc m1 x e w).entry i j =
        if enc.training then
          (leakyReluT (enc.conv1.apply x e w)).entry i j * m1 i j / (1 - 0.2)
        else (leakyReluT (enc.conv1.apply x e w)).entry i j)
    ∧ (fitTrainPrologue g).encoder.training = true := by
  refine ⟨rfl, ?_, rfl⟩
  cases htr : enc.training <;> simp [stage1, dropoutT, htr]

/-- C9: for an input of N nodes with the configured input channel count,
the encoder's first two stages produce N-by-C embeddings (C the
configured output channels), the third stage returns an N-by-(input
channel count) embedding, and every entry of the final output lies in
[-1, 1] thanks to the hyperbolic-tangent squashing. -/
theorem gcn_encoder_stage_shapes (mk : Nat → Nat → ConvLayer)
    (hmk : ∀ a b, (mk a b).cin = a ∧ (mk a b).cout = b ∧ (mk a b).Wf)
    (inCh outCh : Nat) (m1 m2 : Nat → Nat → ℝ) (x : Tensor2)
    (e : List (Nat × Nat)) (w : List ℝ) (hcols : x.cols = inCh) :
    ((stage1 (GCNEncoderM.init mk inCh outCh) m1 x e w).rows = x.rows
      ∧ (stage1 (GCNEncoderM.init mk inCh outCh) m1 x e w).cols = outCh)
    ∧ ((stage2 (GCNEncoderM.init mk inCh outCh) m1 m2 x e w).rows = x.rows
      ∧ (stage2 (GCNEncoderM.init mk inCh outCh) m1 m2 x e w).cols = outCh)
    ∧ (((GCNEncoderM.init mk inCh outCh).forward m1 m2 x e w).rows = x.rows
      ∧ ((GCNEncoderM.init mk inCh outCh).forward m1 m2 x e w).cols = inCh)
    ∧ (∀ i j, -1 ≤ ((GCNEncoderM.init mk inCh outCh).forward m1 m2 x e w).entry i j
        ∧ ((GCNEncoderM.init mk inCh outCh).forward m1 m2 x e w).entry i j ≤ 1) := by
  obtain ⟨h1i, h1o, h1wf⟩ := hmk inCh outCh
  obtain ⟨h2i, h2o, h2wf⟩ := hmk outCh outCh
  obtain ⟨h3i, h3o, h3wf⟩ := hmk outCh inCh
  have hc1 := h1wf x e w (by rw [h1i, hcols])
  have hs1r : (stage1 (GCNEncoderM.init mk inCh outCh) m1 x e w).rows = x.rows := by
    simp only [stage1, dropoutT_rows, leakyReluT_rows]
    exact hc1.1
  have hs1c : (stage1 (GCNEncoderM.init mk inCh outCh) m1 x e w).cols = outCh := by
    simp only [stage1, dropoutT_cols, leakyReluT_cols]
    exact hc1.2.trans h1o
  have hc2 := h2wf (stage1 (GCNEncoderM.init mk inCh outCh) m1 x e w) e w
    (by rw [h2i, hs1c])
  have hs2r : (stage2 (GCNEncoderM.init mk inCh outCh) m1 m2 x e w).rows = x.rows := by
    simp only [stage2, dropoutT_rows, leakyReluT_rows]
    exact hc2.1.trans hs1r
  have hs2c : (stage2 (GCNEncoderM.init mk inCh outCh) m1 m2 x e w).cols = outCh := by
    simp only [stage2, dropoutT_cols, leakyReluT_cols]
    exact hc2.2.trans h2o
  have hc3 := h3wf (stage2 (GCNEncoderM.init mk inCh outCh) m1 m2 x e w) e w
    (by rw [h3i, hs2c])
  refine ⟨⟨hs1r, hs1c⟩, ⟨hs2r, hs2c⟩, ⟨?_, ?_⟩, ?_⟩
  · simp only [GCNEncoderM.forward, tanhT_rows]
    exact hc3.1.trans hs2r
  · simp only [GCNEncoderM.forward, tanhT_cols]
    exact hc3.2.trans h3o
  · intro i j
    simp only [GCNEncoderM.forward, tanhT_entry]
    exact ⟨neg_one_le_tanh _, tanh_le_one _⟩

/-- Witness for C9: the theorem applied to the concrete constant
convolution capability on a 3-node input with 1 input channel and 64
output channels. -/
theorem gcn_encoder_stage_shapes_witness :
    ((∀ a b, (constConv a b).cin = a ∧ (constConv a b).cout = b ∧ (constConv a b).Wf)
      ∧ (Tensor2.mk 3 1 (fun _ _ => 2)).cols = 1)
    ∧ (((stage1 (GCNEncoderM.init constConv 1 64) (fun _ _ => 1)
          (Tensor2.mk 3 1 (fun _ _ => 2)) [] []).rows = (Tensor2.mk 3 1 (fun _ _ => 2)).rows
        ∧ (stage1 (GCNEncoderM.init constConv 1 64) (fun _ _ => 1)
          (Tensor2.mk 3 1 (fun _ _ => 2)) [] []).cols = 64)
      ∧ ((stage2 (GCNEncoderM.init constConv 1 64) (fun _ _ => 1) (fun _ _ => 1)
          (Tensor2.mk 3 1 (fun _ _ => 2)) [] []).rows = (Tensor2.mk 3 1 (fun _ _ => 2)).rows
        ∧ (stage2 (GCNEncoderM.init constConv 1 64) (fun _ _ => 1) (fun _ _ => 1)
          (Tensor2.mk 3 1 (fun _ _ => 2)) [] []).cols = 64)
      ∧ (((GCNEncoderM.init constConv 1 64).forward (fun _ _ => 1) (fun _ _ => 1)
          (Tensor2.mk 3 1 (fun _ _ => 2)) [] []).rows = (Tensor2.mk 3 1 (fun _ _ => 2)).rows
        ∧ ((GCNEncoderM.init constConv 1 64).forward (fun _ _ => 1) (fun _ _ => 1)
          (Tensor2.mk 3 1 (fun _ _ => 2)) [] []).cols = 1)
      ∧ (∀ i j, -1 ≤ ((GCNEncoderM.init constConv 1 64).forward (fun _ _ => 1) (fun _ _ => 1)
            (Tensor2.mk 3 1 (fun _ _ => 2)) [] []).entry i j
          ∧ ((GCNEncoderM.init constConv 1 64).forward (fun _ _ => 1) (fun _ _ => 1)
            (Tensor2.mk 3 1 (fun _ _ => 2)) [] []).entry i j ≤ 1)) :=
  ⟨⟨fun _ _ => ⟨rfl, rfl, fun _ _ _ _ => ⟨rfl, rfl⟩⟩, rfl⟩,
   gcn_encoder_stage_shapes constConv
     (fun _ _ => ⟨rfl, rfl, fun _ _ _ _ => ⟨rfl, rfl⟩⟩)
     1 64 (fun _ _ => 1) (fun _ _ => 1) (Tensor2.mk 3 1 (fun _ _ => 2)) [] [] rfl⟩

/-- C10: the per-batch reconstruction objective in the training loop
depends only on the batch's edge index and edge weights — the `encode`
call receives the empty tensor, never the stored node features — even
though `transform_data` attaches each instance's feature matrix to its
sample. -/
theorem fit_encode_ignores_features
    (encode : List (List ℚ) → List (Nat × Nat) → List ℚ → List (List ℚ))
    (reconLoss : List (List ℚ) → List (Nat × Nat) → ℚ) (i1 i2 : DataM)
    (he : i1.edge_index = i2.edge_index) (ha : i1.edge_attr = i2.edge_attr) :
    batchLoss encode reconLoss i1 = batchLoss encode reconLoss i2
    ∧ ∀ inst : InstanceM, (mkData inst).x = inst.features := by
  exact ⟨by simp [batchLoss, he, ha], fun inst => rfl⟩

/-- Witness for C10: two samples sharing edge data but with different
node features yield the same batch loss. -/
theorem fit_encode_ignores_features_witness :
    ((DataM.mk [[1]] 0 [(0, 0)] [2]).edge_index = (DataM.mk [[3]] 0 [(0, 0)] [2]).edge_index
      ∧ (DataM.mk [[1]] 0 [(0, 0)] [2]).edge_attr = (DataM.mk [[3]] 0 [(0, 0)] [2]).edge_attr
      ∧ (DataM.mk [[1]] 0 [(0, 0)] [2]).x ≠ (DataM.mk [[3]] 0 [(0, 0)] [2]).x)
    ∧ batchLoss (fun _ _ ea => [ea]) (fun z _ => (z.getD 0 []).getD 0 0)
        (DataM.mk [[1]] 0 [(0, 0)] [2]) =
      batchLoss (fun _ _ ea => [ea]) (fun z _ => (z.getD 0 []).getD 0 0)
        (DataM.mk [[3]] 0 [(0, 0)] [2]) :=
  ⟨⟨by decide, by decide, by decide⟩,
   (fit_encode_ignores_features (fun _ _ ea => [ea]) (fun z _ => (z.getD 0 []).getD 0 0)
     (DataM.mk [[1]] 0 [(0, 0)] [2]) (DataM.mk [[3]] 0 [(0, 0)] [2]) (by decide) (by decide)).1⟩

/-! Claim theorems: explain / fit. -/

theorem fitRun_success_fitted (trainOk : Nat → Bool) (o : OracleM) (ds : DatasetM)
    (foldId : Nat) (w w1 : World) (ev : FitEvent)
    (h : fitRun trainOk o ds foldId w = (w1, ev))
    (hev : ev = FitEvent.loaded ∨ ev = FitEvent.trained) : w1.fitted = true := by
  simp only [fitRun] at h
  split at h
  · split at h
    · simp only [Prod.mk.injEq] at h
      rw [← h.1]
    · simp only [Prod.mk.injEq] at h
      rcases hev with hev | hev <;> rw [← h.2] at hev <;> exact absurd hev (by simp)
  · split at h
    · simp only [Prod.mk.injEq] at h
      rcases hev with hev | hev <;> rw [← h.2] at hev <;> exact absurd hev (by simp)
    · split at h
      · simp only [Prod.mk.injEq] at h
        rw [← h.1]
      · simp only [Prod.mk.injEq] at h
        rcases hev with hev | hev <;> rw [← h.2] at hev <;> exact absurd hev (by simp)

/-- C2: `explain` returns the input instance unchanged; it calls `fit`
(with the explainer's stored fold id) if and only if the explainer is not
fitted; and after a successful lazily-triggered fit the explainer is
fitted, so a later `explain` call triggers no further fit. -/
theorem explain_returns_instance_and_lazy_fit (trainOk : Nat → Bool) (inst : InstanceM)
    (o : OracleM) (ds : DatasetM) (w : World) :
    ((explainRun trainOk inst o ds w).2.1 = inst)
    ∧ ((explainRun trainOk inst o ds w).2.2.1 = !w.fitted)
    ∧ (w.fitted = false →
        explainRun trainOk inst o ds w =
          ((fitRun trainOk o ds w.foldId w).1, inst, true,
            some (fitRun trainOk o ds w.foldId w).2))
    ∧ (∀ w1 ev, explainRun trainOk inst o ds w = (w1, inst, true, some ev) →
        (ev = FitEvent.loaded ∨ ev = FitEvent.trained) →
        ∀ (t2 : Nat → Bool) (inst2 : InstanceM) (o2 : OracleM) (ds2 : DatasetM),
          explainRun t2 inst2 o2 ds2 w1 = (w1, inst2, false, none)) := by
  by_cases hf : w.fitted
  · refine ⟨by simp [explainRun, hf], by simp [explainRun, hf], by simp [hf], ?_⟩
    intro w1 ev h _ t2 inst2 o2 ds2
    simp only [explainRun, hf, if_true] at h
    simp only [Prod.mk.injEq] at h
    exact absurd h.2.2.1 (by simp)
  · simp only [Bool.not_eq_true] at hf
    rcases hfr : fitRun trainOk o ds w.foldId w with ⟨w1', ev'⟩
    have hrun : explainRun trainOk inst o ds w = (w1', inst, true, some ev') := by
      simp [explainRun, hf, hfr]
    refine ⟨by simp [hrun], by simp [hrun, hf], by simp [hrun, hfr], ?_⟩
    intro w1 ev h hev t2 inst2 o2 ds2
    rw [hrun] at h
    simp only [Prod.mk.injEq] at h
    have hw1 : w1 = w1' := h.1.symm
    have hev' : ev' = ev := Option.some_injective _ h.2.2.2
    have hfit : w1.fitted = true := by
      rw [hw1]
      exact fitRun_success_fitted trainOk o ds w.foldId w w1' ev' hfr (hev' ▸ hev)
    simp [explainRun, hfit]

/-- Witness for C2: a fresh unfitted explainer over an empty store with a
trivial dataset — the first `explain` returns the instance and triggers a
(successful) fit, the second triggers none. -/
theorem explain_returns_instance_and_lazy_fit_witness :
    ((initWorld "store" 0 0 []).fitted = false)
    ∧ ((explainRun (fun _ => true) (InstanceM.mk [] [] 0) (OracleM.mk 0)
        (DatasetM.mk "d" [] [] []) (initWorld "store" 0 0 [])).2.1 = InstanceM.mk [] [] 0)
    ∧ ((explainRun (fun _ => true) (InstanceM.mk [] [] 0) (OracleM.mk 0)
        (DatasetM.mk "d" [] [] []) (initWorld "store" 0 0 [])).2.2.1 = true)
    ∧ (explainRun (fun _ => true) (InstanceM.mk [] [] 0) (OracleM.mk 0)
        (DatasetM.mk "d" [] [] [])
        ((fitRun (fun _ => true) (OracleM.mk 0) (DatasetM.mk "d" [] [] []) 0
          (initWorld "store" 0 0 [])).1) =
        ((fitRun (fun _ => true) (OracleM.mk 0) (DatasetM.mk "d" [] [] []) 0
          (initWorld "store" 0 0 [])).1, InstanceM.mk [] [] 0, false, none)) := by
  have hthm := explain_returns_instance_and_lazy_fit (fun _ => true)
    (InstanceM.mk [] [] 0) (OracleM.mk 0) (DatasetM.mk "d" [] [] [])
    (initWorld "store" 0 0 [])
  refine ⟨rfl, hthm.1, (hthm.2.1).trans (by rfl), ?_⟩
  exact hthm.2.2.2 _ _ (hthm.2.2.1 rfl) (Or.inr (by rfl)) _ _ _ _

theorem trainLoop_allOk (trainOk : Nat → Bool) (dsName uri : String) :
    ∀ (remaining cls : Nat) (w : World),
      (∀ c, trainOk c = true) → cls + remaining ≤ w.numClasses →
      ∃ ae, trainLoop trainOk dsName uri remaining cls w =
        ({ w with
            autoencoders := ae,
            fs := w.fs ++ (List.range' cls remaining).map
              (fun k => PathM.autoencoderFile uri k) }, none) := by
  intro remaining
  induction remaining with
  | zero =>
      intro cls w _ _
      exact ⟨w.autoencoders, by simp [trainLoop]⟩
  | succ r ih =>
      intro cls w htr hle
      have hcls : cls < w.numClasses := by omega
      obtain ⟨ae, hrec⟩ := ih (cls + 1)
        { w with autoencoders := w.autoencoders.set cls (.trainedOn dsName),
                 fs := w.fs ++ [PathM.autoencoderFile uri cls] }
        htr (by simpa using by omega)
      refine ⟨ae, ?_⟩
      simp only [trainLoop, hcls, if_true, htr cls]
      rw [hrec]
      simp [List.range'_succ]

theorem trainLoop_abort (trainOk : Nat → Bool) (dsName uri : String) (c : Nat) :
    ∀ (remaining cls : Nat) (w : World),
      cls ≤ c → c < cls + remaining → c < w.numClasses → trainOk c = false →
      (∀ x, cls ≤ x → x < c → trainOk x = true) →
      ∃ ae, trainLoop trainOk dsName uri remaining cls w =
        ({ w with
            autoencoders := ae,
            fs := w.fs ++ (List.range' cls (c - cls)).map
              (fun k => PathM.autoencoderFile uri k) }, some c)
        ∧ ∀ i, c ≤ i → ae.getD i .init = w.autoencoders.getD i .init := by
  intro remaining
  induction remaining with
  | zero => intro cls w h1 h2 _ _ _; omega
  | succ r ih =>
      intro cls w hle hlt hnum hfail hpre
      by_cases hc : cls = c
      · subst hc
        refine ⟨w.autoencoders, ?_, fun i _ => rfl⟩
        simp only [trainLoop, hnum, if_true, hfail]
        simp
      · have hlt' : cls < c := lt_of_le_of_ne hle hc
        have hclsn : cls < w.numClasses := by omega
        have hok : trainOk cls = true := hpre cls le_rfl hlt'
        obtain ⟨ae, hrec, hae⟩ := ih (cls + 1)
          { w with autoencoders := w.autoencoders.set cls (.trainedOn dsName),
                   fs := w.fs ++ [PathM.autoencoderFile uri cls] }
          (by omega) (by omega) (by simpa using hnum) hfail
          (fun x hx1 hx2 => hpre x (by omega) hx2)
        refine ⟨ae, ?_, ?_⟩
        · simp only [trainLoop, hclsn, if_true, hok]
          rw [hrec]
          have hsub : c - cls = (c - (cls + 1)) + 1 := by omega
          rw [hsub, List.range'_succ]
          simp
        · intro i hi
          rw [hae i hi]
          simp only [List.getD_eq_getElem?_getD]
          rw [List.getElem?_set_ne (by omega)]

theorem fitRun_eq (trainOk : Nat → Bool) (o : OracleM) (ds : DatasetM)
    (foldId : Nat) (w : World) :
    fitRun trainOk o ds foldId w =
      (if PathM.dir (pathJoin w.storePath (explainerName ds.name foldId)) ∈ w.fs then
        match loadExplainers { w with name := explainerName ds.name foldId }
            (pathJoin w.storePath (explainerName ds.name foldId)) with
        | some w2 => ({ w2 with fitted := true }, FitEvent.loaded)
        | none => ({ w with name := explainerName ds.name foldId }, FitEvent.loadFailed)
      else
        match transformData ds foldId with
        | none =>
            ({ w with
                name := explainerName ds.name foldId,
                fs := w.fs ++ [PathM.dir (pathJoin w.storePath (explainerName ds.name foldId))] },
              FitEvent.dataError)
        | some loaders =>
            match trainLoop trainOk ds.name
                (pathJoin w.storePath (explainerName ds.name foldId)) loaders.length 0
                { w with
                    name := explainerName ds.name foldId,
                    fs := w.fs ++ [PathM.dir (pathJoin w.storePath (explainerName ds.name foldId))] } with
            | (w3, none) => ({ w3 with fitted := true }, FitEvent.trained)
            | (w3, some c) => (w3, FitEvent.trainFailed c)) := rfl

theorem fitRun_loads (trainOk : Nat → Bool) (o : OracleM) (ds : DatasetM)
    (foldId : Nat) (w : World)
    (hmem : PathM.dir (pathJoin w.storePath (explainerName ds.name foldId)) ∈ w.fs)
    (hfiles : ∀ c < w.numClasses,
      PathM.autoencoderFile (pathJoin w.storePath (explainerName ds.name foldId)) c ∈ w.fs) :
    fitRun trainOk o ds foldId w =
      ({ w with
          name := explainerName ds.name foldId,
          fitted := true,
          autoencoders := (List.range w.numClasses).map
            (fun _ => AEW.loadedFrom (pathJoin w.storePath (explainerName ds.name foldId))) },
        FitEvent.loaded) := by
  rw [fitRun_eq, if_pos hmem]
  have hall : ((List.range w.numClasses).all
      (fun c => w.fs.contains
        (PathM.autoencoderFile (pathJoin w.storePath (explainerName ds.name foldId)) c))) = true := by
    rw [List.all_eq_true]
    intro c hc
    exact List.elem_iff.mpr (hfiles c (List.mem_range.mp hc))
  simp only [loadExplainers]
  rw [if_pos hall]

/-- C1: fitting twice with the same (oracle, dataset, fold id) trains
only once. Starting from a filesystem without the identity's checkpoint
directory, the first `fit` creates the directory, runs the per-class
training (writing one weight file per class), and sets the fitted flag;
the second `fit` finds the directory, loads the ensemble weights instead
of training (no new filesystem writes, autoencoders replaced by loaded
weights), and sets the fitted flag again. -/
theorem fit_idempotent (trainOk : Nat → Bool) (o o2 : OracleM) (ds : DatasetM)
    (foldId : Nat) (w : World) (loaders : List (ℤ × List DataM))
    (hdir : PathM.dir (explainerUri w.storePath ds.name foldId) ∉ w.fs)
    (htr : ∀ c, trainOk c = true)
    (hld : transformData ds foldId = some loaders)
    (hlen : loaders.length = w.numClasses) :
    ∃ w1 w2,
      fitRun trainOk o ds foldId w = (w1, FitEvent.trained)
      ∧ w1.fitted = true
      ∧ PathM.dir (explainerUri w.storePath ds.name foldId) ∈ w1.fs
      ∧ fitRun trainOk o2 ds foldId w1 = (w2, FitEvent.loaded)
      ∧ w2.fitted = true
      ∧ w2.fs = w1.fs
      ∧ w2.autoencoders =
          (List.range w1.numClasses).map
            (fun _ => AEW.loadedFrom (explainerUri w.storePath ds.name foldId)) := by
  obtain ⟨ae, hloop⟩ := trainLoop_allOk trainOk ds.name
    (pathJoin w.storePath (explainerName ds.name foldId)) loaders.length 0
    { w with
        name := explainerName ds.name foldId,
        fs := w.fs ++ [PathM.dir (pathJoin w.storePath (explainerName ds.name foldId))] }
    htr (by simp [hlen])
  have hdir' : PathM.dir (pathJoin w.storePath (explainerName ds.name foldId)) ∉ w.fs := hdir
  have hfit1 : fitRun trainOk o ds foldId w =
      ({ w with
          name := explainerName ds.name foldId,
          fitted := true,
          autoencoders := ae,
          fs := (w.fs ++ [PathM.dir (pathJoin w.storePath (explainerName ds.name foldId))]) ++
            (List.range' 0 loaders.length).map
              (fun k => PathM.autoencoderFile (pathJoin w.storePath (explainerName ds.name foldId)) k) },
        FitEvent.trained) := by
    rw [fitRun_eq, if_neg hdir']
    simp only [hld]
    rw [hloop]
  have hfit2 := fitRun_loads trainOk o2 ds foldId
    ({ w with
        name := explainerName ds.name foldId,
        fitted := true,
        autoencoders := ae,
        fs := (w.fs ++ [PathM.dir (pathJoin w.storePath (explainerName ds.name foldId))]) ++
          (List.range' 0 loaders.length).map
            (fun k => PathM.autoencoderFile (pathJoin w.storePath (explainerName ds.name foldId)) k) })
    (by simp)
    (by
      intro cc hcc
      have hcc' : cc < w.numClasses := hcc
      refine List.mem_append_right _ ?_
      exact List.mem_map.mpr ⟨cc, List.mem_range'_1.mpr ⟨Nat.zero_le _, by omega⟩, rfl⟩)
  exact ⟨_, _, hfit1, rfl, by simp [explainerUri], hfit2, rfl, rfl, rfl⟩

/-- Witness for C1: a one-class dataset with a single training instance,
an empty store. -/
theorem fit_idempotent_witness :
    (PathM.dir (explainerUri "store" "d" 0) ∉ (initWorld "store" 0 1 []).fs
      ∧ (∀ c : Nat, (fun _ : Nat => true) c = true)
      ∧ transformData (DatasetM.mk "d" [InstanceM.mk [[0, 1], [1, 0]] [[1], [1]] 0] [[0]] [0]) 0 =
          some [((0 : ℤ), [mkData (InstanceM.mk [[0, 1], [1, 0]] [[1], [1]] 0)])]
      ∧ [((0 : ℤ), [mkData (InstanceM.mk [[0, 1], [1, 0]] [[1], [1]] 0)])].length =
          (initWorld "store" 0 1 []).numClasses)
    ∧ ∃ w1 w2,
        fitRun (fun _ => true) (OracleM.mk 0)
          (DatasetM.mk "d" [InstanceM.mk [[0, 1], [1, 0]] [[1], [1]] 0] [[0]] [0]) 0
          (initWorld "store" 0 1 []) = (w1, FitEvent.trained)
        ∧ w1.fitted = true
        ∧ PathM.dir (explainerUri "store" "d" 0) ∈ w1.fs
        ∧ fitRun (fun _ => true) (OracleM.mk 1)
            (DatasetM.mk "d" [InstanceM.mk [[0, 1], [1, 0]] [[1], [1]] 0] [[0]] [0]) 0 w1 = (w2, FitEvent.loaded)
        ∧ w2.fitted = true
        ∧ w2.fs = w1.fs
        ∧ w2.autoencoders =
            (List.range w1.numClasses).map (fun _ => AEW.loadedFrom (explainerUri "store" "d" 0)) :=
  ⟨⟨by decide, fun _ => rfl, by decide, by decide⟩,
   fit_idempotent (fun _ => true) (OracleM.mk 0) (OracleM.mk 1)
     (DatasetM.mk "d" [InstanceM.mk [[0, 1], [1, 0]] [[1], [1]] 0] [[0]] [0]) 0
     (initWorld "store" 0 1 [])
     [((0 : ℤ), [mkData (InstanceM.mk [[0, 1], [1, 0]] [[1], [1]] 0)])]
     (by decide) (fun _ => rfl) (by decide) (by decide)⟩

/-- C7: if per-class training raises while training class c (all earlier
classes having trained successfully), the exception propagates out of
`fit`: the result is the train-failure event for class c, the fitted flag
is left as it was, the checkpoint directory created before training
persists, checkpoint files exist exactly for the classes before c, and
the autoencoders of class c and later keep their prior state. -/
theorem fit_aborts_on_training_failure (trainOk : Nat → Bool) (o : OracleM)
    (ds : DatasetM) (foldId : Nat) (w : World) (loaders : List (ℤ × List DataM)) (c : Nat)
    (hdir : PathM.dir (explainerUri w.storePath ds.name foldId) ∉ w.fs)
    (hclean : ∀ k, PathM.autoencoderFile (explainerUri w.storePath ds.name foldId) k ∉ w.fs)
    (hld : transformData ds foldId = some loaders)
    (hcl : c < loaders.length)
    (hcn : c < w.numClasses)
    (hfail : trainOk c = false)
    (hpre : ∀ x < c, trainOk x = true) :
    ∃ w3,
      fitRun trainOk o ds foldId w = (w3, FitEvent.trainFailed c)
      ∧ w3.fitted = w.fitted
      ∧ PathM.dir (explainerUri w.storePath ds.name foldId) ∈ w3.fs
      ∧ (∀ k, PathM.autoencoderFile (explainerUri w.storePath ds.name foldId) k ∈ w3.fs ↔ k < c)
      ∧ (∀ i, c ≤ i → w3.autoencoders.getD i .init = w.autoencoders.getD i .init) := by
  obtain ⟨ae, hloop, hae⟩ := trainLoop_abort trainOk ds.name
    (pathJoin w.storePath (explainerName ds.name foldId)) c loaders.length 0
    { w with
        name := explainerName ds.name foldId,
        fs := w.fs ++ [PathM.dir (pathJoin w.storePath (explainerName ds.name foldId))] }
    (Nat.zero_le c) (by omega) (by exact hcn) hfail
    (fun x _ hx => hpre x hx)
  have hdir' : PathM.dir (pathJoin w.storePath (explainerName ds.name foldId)) ∉ w.fs := hdir
  have hfit3 : fitRun trainOk o ds foldId w =
      ({ w with
          name := explainerName ds.name foldId,
          autoencoders := ae,
          fs := (w.fs ++ [PathM.dir (pathJoin w.storePath (explainerName ds.name foldId))]) ++
            (List.range' 0 (c - 0)).map
              (fun k => PathM.autoencoderFile (pathJoin w.storePath (explainerName ds.name foldId)) k) },
        FitEvent.trainFailed c) := by
    rw [fitRun_eq, if_neg hdir']
    simp only [hld]
    rw [hloop]
  refine ⟨_, hfit3, rfl, ?_, ?_, ?_⟩
  · simp [explainerUri]
  · intro k
    simp only [explainerUri]
    constructor
    · intro hk
      simp only [List.append_assoc, List.mem_append] at hk
      rcases hk with hk | hk | hk
      · exact absurd hk (hclean k)
      · simp at hk
      · obtain ⟨j, hj, hj2⟩ := List.mem_map.mp hk
        obtain ⟨-, hj'⟩ := List.mem_range'_1.mp hj
        obtain ⟨-, rfl⟩ := PathM.autoencoderFile.inj hj2
        omega
    · intro hk
      refine List.mem_append_right _ ?_
      exact List.mem_map.mpr ⟨k, List.mem_range'_1.mpr ⟨Nat.zero_le _, by omega⟩, rfl⟩
  · intro i hi
    exact hae i hi

/-- Witness for C7: a two-class dataset where class 1 fails to train:
the directory and the class-0 checkpoint survive, class 1 has no file,
and the explainer is not marked fitted. -/
theorem fit_aborts_on_training_failure_witness :
    (PathM.dir (explainerUri "store" "d" 0) ∉ (initWorld "store" 0 2 []).fs
      ∧ (∀ k : Nat, PathM.autoencoderFile (explainerUri "store" "d" 0) k ∉ (initWorld "store" 0 2 []).fs)
      ∧ transformData (DatasetM.mk "d" [InstanceM.mk [[1]] [[1]] 0, InstanceM.mk [[2]] [[1]] 1] [[0, 1]] [0, 1]) 0 =
          some [((0 : ℤ), [mkData (InstanceM.mk [[1]] [[1]] 0)]),
                ((1 : ℤ), [mkData (InstanceM.mk [[2]] [[1]] 1)])]
      ∧ (fun c : Nat => decide (c = 0)) 1 = false)
    ∧ ∃ w3,
        fitRun (fun c => decide (c = 0)) (OracleM.mk 0)
          (DatasetM.mk "d" [InstanceM.mk [[1]] [[1]] 0, InstanceM.mk [[2]] [[1]] 1] [[0, 1]] [0, 1]) 0
          (initWorld "store" 0 2 []) = (w3, FitEvent.trainFailed 1)
        ∧ w3.fitted = (initWorld "store" 0 2 []).fitted
        ∧ PathM.dir (explainerUri "store" "d" 0) ∈ w3.fs
        ∧ (∀ k, PathM.autoencoderFile (explainerUri "store" "d" 0) k ∈ w3.fs ↔ k < 1)
        ∧ (∀ i, 1 ≤ i → w3.autoencoders.getD i .init = (initWorld "store" 0 2 []).autoencoders.getD i .init) :=
  ⟨⟨by decide, fun k => List.not_mem_nil _, by decide, by decide⟩,
   fit_aborts_on_training_failure (fun c => decide (c = 0)) (OracleM.mk 0)
     (DatasetM.mk "d" [InstanceM.mk [[1]] [[1]] 0, InstanceM.mk [[2]] [[1]] 1] [[0, 1]] [0, 1]) 0
     (initWorld "store" 0 2 [])
     [((0 : ℤ), [mkData (InstanceM.mk [[1]] [[1]] 0)]),
      ((1 : ℤ), [mkData (InstanceM.mk [[2]] [[1]] 1)])] 1
     (by decide) (fun k => List.not_mem_nil _) (by decide)
     (by decide) (by decide) (by decide)
     (fun x hx => by
       have hx0 : x = 0 := by omega
       subst hx0
       rfl)⟩

/-! Claim theorems: transform_data partition. -/

theorem map_update_eq_self (B : List (ℤ × List DataM)) (lab : ℤ) (d : DataM)
    (h : lab ∉ B.map Prod.fst) :
    B.map (fun p => if p.1 = lab then (p.1, p.2 ++ [d]) else p) = B := by
  induction B with
  | nil => rfl
  | cons q t ih =>
      simp only [List.map_cons, List.mem_cons, not_or] at h
      obtain ⟨h1, h2⟩ := h
      simp only [List.map_cons]
      rw [if_neg (fun hq => h1 hq.symm), ih h2]

theorem addToBucket_some (lab : ℤ) (d : DataM) :
    ∀ B : List (ℤ × List DataM),
      (B.map Prod.fst).Nodup → lab ∈ B.map Prod.fst →
      addToBucket B lab d =
        some (B.map (fun p => if p.1 = lab then (p.1, p.2 ++ [d]) else p)) := by
  intro B
  induction B with
  | nil => intro _ hmem; simp at hmem
  | cons q t ih =>
      intro hnd hmem
      obtain ⟨c, l⟩ := q
      have hnd0 : (((c, l) :: t).map Prod.fst) = c :: t.map Prod.fst := rfl
      rw [hnd0] at hnd hmem
      by_cases hq : c = lab
      · have hnot : lab ∉ t.map Prod.fst := by
          rw [← hq]
          exact (List.nodup_cons.mp hnd).1
        simp only [addToBucket, if_pos hq, List.map_cons]
        rw [map_update_eq_self t lab d hnot]
      · have hmem' : lab ∈ t.map Prod.fst := by
          rcases List.mem_cons.mp hmem with h | h
          · exact absurd h.symm hq
          · exact h
        have hnd' : (t.map Prod.fst).Nodup := (List.nodup_cons.mp hnd).2
        simp only [addToBucket, if_neg hq, List.map_cons]
        rw [ih hnd' hmem']
        rfl

theorem foldlM_addToBucket :
    ∀ (S : List InstanceM) (B : List (ℤ × List DataM)),
      (B.map Prod.fst).Nodup →
      (∀ inst ∈ S, inst.graph_label ∈ B.map Prod.fst) →
      S.foldlM (fun buckets inst => addToBucket buckets inst.graph_label (mkData inst)) B =
        some (B.map (fun p =>
          (p.1, p.2 ++ (S.filter (fun inst => inst.graph_label = p.1)).map mkData))) := by
  intro S
  induction S with
  | nil =>
      intro B _ _
      simp
  | cons s t ih =>
      intro B hnd hlab
      rw [List.foldlM_cons, addToBucket_some s.graph_label (mkData s) B hnd (hlab s (by simp))]
      have hkeys : (B.map (fun p =>
          if p.1 = s.graph_label then (p.1, p.2 ++ [mkData s]) else p)).map Prod.fst =
          B.map Prod.fst := by
        rw [List.map_map]
        apply List.map_congr_left
        intro p _
        by_cases h : p.1 = s.graph_label <;> simp [h]
      have hrec := ih (B.map (fun p =>
          if p.1 = s.graph_label then (p.1, p.2 ++ [mkData s]) else p))
        (by rw [hkeys]; exact hnd)
        (fun inst hi => by rw [hkeys]; exact hlab inst (by simp [hi]))
      simp only [Option.bind_eq_bind, Option.some_bind]
      rw [hrec]
      congr 1
      rw [List.map_map]
      apply List.map_congr_left
      intro p _
      by_cases h : p.1 = s.graph_label
      · simp only [Function.comp, if_pos h]
        rw [List.filter_cons, if_pos (by simp [h.symm])]
        simp
      · simp only [Function.comp, if_neg h]
        rw [List.filter_cons, if_neg (by simp; exact fun he => h he.symm)]

theorem transformData_eq (ds : DatasetM) (foldId : Nat)
    (hnd : ds.classes.Nodup)
    (hlab : ∀ i ∈ ds.splitIndices.getD foldId [],
      (ds.instances.getD i default).graph_label ∈ ds.classes) :
    transformData ds foldId =
      some (ds.classes.map (fun c =>
        (c, ((ds.splitIndices.getD foldId []).filter
              (fun i => (ds.instances.getD i default).graph_label = c)).map
            (fun i => mkData (ds.instances.getD i default))))) := by
  unfold transformData
  rw [foldlM_addToBucket]
  · congr 1
    rw [List.map_map]
    apply List.map_congr_left
    intro c _
    simp only [Function.comp]
    rw [List.nil_append, List.filter_map, List.map_map]
    rfl
  · rw [List.map_map]
    have hco : (Prod.fst ∘ fun c : ℤ => (c, ([] : List DataM))) = fun c : ℤ => c := rfl
    rw [hco, List.map_id']
    exact hnd
  · intro inst hi
    obtain ⟨i, hiI, rfl⟩ := List.mem_map.mp hi
    rw [List.map_map]
    have hco : (Prod.fst ∘ fun c : ℤ => (c, ([] : List DataM))) = fun c : ℤ => c := rfl
    rw [hco, List.map_id']
    exact hlab i hiI

/-- C5: the per-class collections built by `transform_data` partition
exactly the fold's train split: the bucket keys are the dataset's
classes, the sample of every train-split index is a member of the bucket
keyed by its instance's label, every sample in any bucket carries that
bucket's key as its label and comes from some train-split index, and no
sample belongs to buckets with two different keys. -/
theorem transform_data_partitions_train_split (ds : DatasetM) (foldId : Nat)
    (hnd : ds.classes.Nodup)
    (hlab : ∀ i ∈ ds.splitIndices.getD foldId [],
      (ds.instances.getD i default).graph_label ∈ ds.classes) :
    ∃ buckets, transformData ds foldId = some buckets
      ∧ buckets.map Prod.fst = ds.classes
      ∧ (∀ i ∈ ds.splitIndices.getD foldId [],
          ∃ l, ((ds.instances.getD i default).graph_label, l) ∈ buckets
            ∧ mkData (ds.instances.getD i default) ∈ l)
      ∧ (∀ c l, (c, l) ∈ buckets → ∀ d ∈ l,
          d.y = c ∧ ∃ i ∈ ds.splitIndices.getD foldId [],
            d = mkData (ds.instances.getD i default))
      ∧ (∀ c1 l1 c2 l2 d, (c1, l1) ∈ buckets → (c2, l2) ∈ buckets →
          d ∈ l1 → d ∈ l2 → c1 = c2) := by
  have helem : ∀ c l, (c, l) ∈ ds.classes.map (fun c =>
      (c, ((ds.splitIndices.getD foldId []).filter
            (fun i => (ds.instances.getD i default).graph_label = c)).map
          (fun i => mkData (ds.instances.getD i default)))) → ∀ d ∈ l,
      d.y = c ∧ ∃ i ∈ ds.splitIndices.getD foldId [],
        d = mkData (ds.instances.getD i default) := by
    intro c l hcl d hd
    obtain ⟨c', hc', heq⟩ := List.mem_map.mp hcl
    cases heq
    obtain ⟨i, hif, rfl⟩ := List.mem_map.mp hd
    obtain ⟨hii, hpred⟩ := List.mem_filter.mp hif
    refine ⟨?_, i, hii, rfl⟩
    simpa [mkData] using hpred
  refine ⟨_, transformData_eq ds foldId hnd hlab, ?_, ?_, helem, ?_⟩
  · rw [List.map_map]
    have hco : (Prod.fst ∘ fun c : ℤ =>
        (c, ((ds.splitIndices.getD foldId []).filter
              (fun i => (ds.instances.getD i default).graph_label = c)).map
            (fun i => mkData (ds.instances.getD i default)))) = fun c : ℤ => c := rfl
    rw [hco, List.map_id']
  · intro i hi
    refine ⟨_, List.mem_map.mpr ⟨(ds.instances.getD i default).graph_label, hlab i hi, rfl⟩, ?_⟩
    exact List.mem_map.mpr ⟨i, List.mem_filter.mpr ⟨hi, by simp⟩, rfl⟩
  · intro c1 l1 c2 l2 d h1 h2 hd1 hd2
    have e1 := (helem c1 l1 h1 d hd1).1
    have e2 := (helem c2 l2 h2 d hd2).1
    rw [← e1, ← e2]

/-- Witness for C5: two classes, three instances, train split 0 and 2 —
instance 1 (label 1) is excluded, instance 0 lands in the class-0 bucket
and instance 2 in the class-1 bucket. -/
theorem transform_data_partitions_train_split_witness :
    ((DatasetM.mk "d" [InstanceM.mk [[1]] [[1]] 0, InstanceM.mk [[2]] [[2]] 1,
        InstanceM.mk [[3]] [[3]] 1] [[0, 2]] [0, 1]).classes.Nodup
      ∧ (∀ i ∈ (DatasetM.mk "d" [InstanceM.mk [[1]] [[1]] 0, InstanceM.mk [[2]] [[2]] 1,
            InstanceM.mk [[3]] [[3]] 1] [[0, 2]] [0, 1]).splitIndices.getD 0 [],
          ((DatasetM.mk "d" [InstanceM.mk [[1]] [[1]] 0, InstanceM.mk [[2]] [[2]] 1,
              InstanceM.mk [[3]] [[3]] 1] [[0, 2]] [0, 1]).instances.getD i default).graph_label ∈
            (DatasetM.mk "d" [InstanceM.mk [[1]] [[1]] 0, InstanceM.mk [[2]] [[2]] 1,
              InstanceM.mk [[3]] [[3]] 1] [[0, 2]] [0, 1]).classes))
    ∧ ∃ buckets,
        transformData (DatasetM.mk "d" [InstanceM.mk [[1]] [[1]] 0, InstanceM.mk [[2]] [[2]] 1,
          InstanceM.mk [[3]] [[3]] 1] [[0, 2]] [0, 1]) 0 = some buckets
        ∧ buckets.map Prod.fst =
            (DatasetM.mk "d" [InstanceM.mk [[1]] [[1]] 0, InstanceM.mk [[2]] [[2]] 1,
              InstanceM.mk [[3]] [[3]] 1] [[0, 2]] [0, 1]).classes
        ∧ (∀ i ∈ (DatasetM.mk "d" [InstanceM.mk [[1]] [[1]] 0, InstanceM.mk [[2]] [[2]] 1,
              InstanceM.mk [[3]] [[3]] 1] [[0, 2]] [0, 1]).splitIndices.getD 0 [],
            ∃ l, (((DatasetM.mk "d" [InstanceM.mk [[1]] [[1]] 0, InstanceM.mk [[2]] [[2]] 1,
                InstanceM.mk [[3]] [[3]] 1] [[0, 2]] [0, 1]).instances.getD i default).graph_label, l) ∈ buckets
              ∧ mkData ((DatasetM.mk "d" [InstanceM.mk [[1]] [[1]] 0, InstanceM.mk [[2]] [[2]] 1,
                  InstanceM.mk [[3]] [[3]] 1] [[0, 2]] [0, 1]).instances.getD i default) ∈ l)
        ∧ (∀ c l, (c, l) ∈ buckets → ∀ d ∈ l,
            d.y = c ∧ ∃ i ∈ (DatasetM.mk "d" [InstanceM.mk [[1]] [[1]] 0, InstanceM.mk [[2]] [[2]] 1,
                InstanceM.mk [[3]] [[3]] 1] [[0, 2]] [0, 1]).splitIndices.getD 0 [],
              d = mkData ((DatasetM.mk "d" [InstanceM.mk [[1]] [[1]] 0, InstanceM.mk [[2]] [[2]] 1,
                  InstanceM.mk [[3]] [[3]] 1] [[0, 2]] [0, 1]).instances.getD i default))
        ∧ (∀ c1 l1 c2 l2 d, (c1, l1) ∈ buckets → (c2, l2) ∈ buckets →
            d ∈ l1 → d ∈ l2 → c1 = c2) :=
  ⟨⟨by decide, by decide⟩,
   transform_data_partitions_train_split
     (DatasetM.mk "d" [InstanceM.mk [[1]] [[1]] 0, InstanceM.mk [[2]] [[2]] 1,
       InstanceM.mk [[3]] [[3]] 1] [[0, 2]] [0, 1]) 0 (by decide) (by decide)⟩

/-! Claim theorems: sparse conversion round-trip. -/

theorem length_filterMap_ite {β : Type} (g : Nat → β) (P : Nat → Prop) [DecidablePred P]
    (l : List Nat) :
    (l.filterMap (fun j => if P j then some (g j) else none)).length =
      l.countP (fun j => decide (P j)) := by
  induction l with
  | nil => rfl
  | cons a t ih =>
      rw [List.filterMap_cons, List.countP_cons]
      by_cases h : P a
      · simp [h, ih]
      · simp [h, ih]

theorem countP_positions (p : ℚ → Bool) :
    ∀ (row : List ℚ) (d : ℚ),
      (List.range row.length).countP (fun j => p (row.getD j d)) = row.countP p := by
  intro row
  induction row with
  | nil => intro d; rfl
  | cons a t ih =>
      intro d
      rw [List.length_cons, List.range_succ_eq_map, List.countP_cons, List.countP_map]
      have h1 : ((fun j => p ((a :: t).getD j d)) ∘ Nat.succ) = fun j => p (t.getD j d) := by
        funext j
        simp [List.getD_cons_succ]
      rw [h1, ih d, List.countP_cons, List.getD_cons_zero]

theorem rowNonzero_length (A : List (List ℚ)) (i : Nat) :
    (rowNonzero A i).length = (A.getD i []).countP (fun v => v ≠ 0) := by
  have h1 := length_filterMap_ite (fun j => ((i, j) : Nat × Nat))
      (fun j => entryD A i j ≠ 0) (List.range (A.getD i []).length)
  have h2 := countP_positions (fun v => decide (v ≠ 0)) (A.getD i []) 0
  exact h1.trans h2

theorem map_range_getD {β : Type} (A : List (List ℚ)) (g : List ℚ → β) :
    (List.range A.length).map (fun i => g (A.getD i [])) = A.map g := by
  induction A with
  | nil => rfl
  | cons r t ih =>
      rw [List.length_cons, List.range_succ_eq_map, List.map_cons, List.map_map]
      have h1 : ((fun i => g ((r :: t).getD i [])) ∘ Nat.succ) = fun i => g (t.getD i []) := by
        funext i
        simp [List.getD_cons_succ]
      rw [h1, ih]
      rfl

theorem nonzeroIdx_length (A : List (List ℚ)) :
    (nonzeroIdx A).length = countNonzero A := by
  unfold nonzeroIdx countNonzero
  rw [List.length_flatMap]
  congr 1
  have h1 : ∀ i ∈ List.range A.length,
      (List.length ∘ rowNonzero A) i = (A.getD i []).countP (fun v => v ≠ 0) :=
    fun i _ => rowNonzero_length A i
  rw [List.map_congr_left h1]
  exact map_range_getD A _

theorem mem_rowNonzero (A : List (List ℚ)) (i : Nat) (p : Nat × Nat) :
    p ∈ rowNonzero A i ↔ p.1 = i ∧ p.2 < (A.getD i []).length ∧ entryD A i p.2 ≠ 0 := by
  unfold rowNonzero
  rw [List.mem_filterMap]
  constructor
  · rintro ⟨j, hj, hif⟩
    by_cases h : entryD A i j ≠ 0
    · rw [if_pos h] at hif
      obtain rfl := Option.some_injective _ hif
      exact ⟨rfl, List.mem_range.mp hj, h⟩
    · rw [if_neg h] at hif
      exact absurd hif (by simp)
  · rintro ⟨h1, h2, h3⟩
    refine ⟨p.2, List.mem_range.mpr h2, ?_⟩
    rw [if_pos h3, ← h1]

theorem mem_nonzeroIdx (A : List (List ℚ)) (a b : Nat) :
    (a, b) ∈ nonzeroIdx A ↔
      a < A.length ∧ b < (A.getD a []).length ∧ entryD A a b ≠ 0 := by
  unfold nonzeroIdx
  rw [List.mem_flatMap]
  constructor
  · rintro ⟨i, hi, hmem⟩
    obtain ⟨h1, h2, h3⟩ := (mem_rowNonzero A i (a, b)).mp hmem
    cases h1
    exact ⟨List.mem_range.mp hi, h2, h3⟩
  · rintro ⟨h1, h2, h3⟩
    exact ⟨a, List.mem_range.mpr h1, (mem_rowNonzero A a (a, b)).mpr ⟨rfl, h2, h3⟩⟩

theorem zip_self_map {α β : Type} (g : α → β) :
    ∀ l : List α, l.zip (l.map g) = l.map (fun a => (a, g a))
  | [] => rfl
  | a :: t => by rw [List.map_cons, List.zip_cons_cons, zip_self_map g t, List.map_cons]

theorem entryD_zeroMat (n m a b : Nat) : entryD (zeroMat n m) a b = 0 := by
  unfold entryD zeroMat
  rcases Nat.lt_or_ge a n with h | h
  · have hrow : (List.replicate n (List.replicate m (0 : ℚ))).getD a [] =
        List.replicate m (0 : ℚ) := by
      rw [List.getD_eq_getElem _ _ (by simpa using h)]
      exact List.getElem_replicate _ _
    rw [hrow]
    rcases Nat.lt_or_ge b m with h2 | h2
    · rw [List.getD_eq_getElem _ _ (by simpa using h2)]
      exact List.getElem_replicate _ _
    · exact List.getD_eq_default _ _ (by simpa using h2)
  · have hrow : (List.replicate n (List.replicate m (0 : ℚ))).getD a [] = [] :=
      List.getD_eq_default _ _ (by simpa using h)
    rw [hrow]
    rfl

theorem rows_setEntry (M : List (List ℚ)) (n i j : Nat) (v : ℚ)
    (hrows : ∀ row ∈ M, row.length = n) (hi : i < M.length) :
    ∀ row ∈ setEntry M i j v, row.length = n := by
  intro row hrow
  rcases List.mem_or_eq_of_mem_set hrow with h | h
  · exact hrows row h
  · subst h
    rw [List.length_set, List.getD_eq_getElem _ _ hi]
    exact hrows _ (List.getElem_mem hi)

theorem entryD_setEntry (M : List (List ℚ)) (i j : Nat) (v : ℚ)
    (hi : i < M.length) (hj : j < (M.getD i []).length) (a b : Nat) :
    entryD (setEntry M i j v) a b =
      if a = i ∧ b = j then v else entryD M a b := by
  unfold entryD setEntry
  by_cases ha : a = i
  · subst ha
    rw [List.getD_eq_getElem?_getD (M.set a ((M.getD a []).set j v)) a,
      List.getElem?_set_eq_of_lt _ hi, Option.getD_some]
    by_cases hb : b = j
    · subst hb
      rw [List.getD_eq_getElem?_getD ((M.getD a []).set b v) b,
        List.getElem?_set_eq_of_lt _ hj, Option.getD_some, if_pos ⟨rfl, rfl⟩]
    · rw [if_neg (fun hc => hb hc.2)]
      rw [List.getD_eq_getElem?_getD ((M.getD a []).set j v) b,
        List.getElem?_set_ne (fun hc => hb hc.symm), ← List.getD_eq_getElem?_getD]
  · rw [if_neg (fun hc => ha hc.1)]
    rw [List.getD_eq_getElem?_getD (M.set i ((M.getD i []).set j v)) a,
      List.getElem?_set_ne (fun hc => ha hc.symm), ← List.getD_eq_getElem?_getD]

theorem scatter_fold (A : List (List ℚ)) (n : Nat) :
    ∀ (L : List ((Nat × Nat) × ℚ)) (M : List (List ℚ)),
      M.length = n → (∀ row ∈ M, row.length = n) →
      (∀ pv ∈ L, pv.1.1 < n ∧ pv.1.2 < n ∧ pv.2 = entryD A pv.1.1 pv.1.2) →
      ((L.foldl (fun acc pv => setEntry acc pv.1.1 pv.1.2 pv.2) M).length = n
        ∧ (∀ row ∈ L.foldl (fun acc pv => setEntry acc pv.1.1 pv.1.2 pv.2) M, row.length = n)
        ∧ ∀ a b, entryD (L.foldl (fun acc pv => setEntry acc pv.1.1 pv.1.2 pv.2) M) a b =
            if (a, b) ∈ L.map Prod.fst then entryD A a b else entryD M a b) := by
  intro L
  induction L with
  | nil =>
      intro M h1 h2 _
      exact ⟨h1, h2, fun a b => by simp⟩
  | cons pv rest ih =>
      intro M h1 h2 h3
      obtain ⟨hi, hj, hv⟩ := h3 pv (by simp)
      have hi' : pv.1.1 < M.length := by omega
      have hjr : pv.1.2 < (M.getD pv.1.1 []).length := by
        rw [List.getD_eq_getElem _ _ hi', h2 _ (List.getElem_mem hi')]
        exact hj
      have hlen' : (setEntry M pv.1.1 pv.1.2 pv.2).length = n := by
        unfold setEntry
        rw [List.length_set]
        exact h1
      have hrows' := rows_setEntry M n pv.1.1 pv.1.2 pv.2 h2 hi'
      obtain ⟨g1, g2, g3⟩ := ih (setEntry M pv.1.1 pv.1.2 pv.2) hlen' hrows'
        (fun q hq => h3 q (by simp [hq]))
      rw [List.foldl_cons]
      refine ⟨g1, g2, ?_⟩
      intro a b
      rw [g3 a b]
      by_cases hmem : (a, b) ∈ rest.map Prod.fst
      · rw [if_pos hmem, if_pos (by simp [hmem])]
      · rw [if_neg hmem, entryD_setEntry M _ _ _ hi' hjr a b]
        by_cases heq : (a, b) = pv.1
        · have hab : a = pv.1.1 ∧ b = pv.1.2 :=
            ⟨congrArg Prod.fst heq, congrArg Prod.snd heq⟩
          rw [if_pos hab, if_pos (by simp [heq]), hv, hab.1, hab.2]
        · have hab : ¬ (a = pv.1.1 ∧ b = pv.1.2) := by
            rintro ⟨u1, u2⟩
            exact heq (by rw [u1, u2])
          rw [if_neg hab, if_neg (by simp [heq, hmem])]

theorem matrix_ext (M N : List (List ℚ)) (n : Nat)
    (hM : M.length = n) (hN : N.length = n)
    (hMr : ∀ row ∈ M, row.length = n) (hNr : ∀ row ∈ N, row.length = n)
    (h : ∀ a b, a < n → b < n → entryD M a b = entryD N a b) : M = N := by
  apply List.ext_getElem (by omega)
  intro i h1 h2
  apply List.ext_getElem
  · rw [hMr _ (List.getElem_mem h1), hNr _ (List.getElem_mem h2)]
  · intro j hj1 hj2
    have hin : i < n := by omega
    have hjn : j < n := by
      rw [hMr _ (List.getElem_mem h1)] at hj1
      exact hj1
    have he := h i j hin hjn
    unfold entryD at he
    rw [List.getD_eq_getElem _ _ h1, List.getD_eq_getElem _ _ h2,
      List.getD_eq_getElem _ _ hj1, List.getD_eq_getElem _ _ hj2] at he
    exact he

/-- C6: for a square dense weighted-adjacency matrix with k non-zero
entries, the derived edge-index list and edge-weight list each have
exactly k entries (k columns of the stacked pair), and scattering the
weights back to the indexed positions of a zero matrix reproduces the
original dense matrix. -/
theorem sparse_conversion_round_trip (A : List (List ℚ)) (n : Nat)
    (hlen : A.length = n) (hrect : ∀ row ∈ A, row.length = n) :
    (nonzeroIdx A).length = countNonzero A
    ∧ (gatherVals A (nonzeroIdx A)).length = countNonzero A
    ∧ scatterDense n n (nonzeroIdx A) (gatherVals A (nonzeroIdx A)) = A := by
  refine ⟨nonzeroIdx_length A, ?_, ?_⟩
  · rw [gatherVals, List.length_map]
    exact nonzeroIdx_length A
  · have hzip : (nonzeroIdx A).zip (gatherVals A (nonzeroIdx A)) =
        (nonzeroIdx A).map (fun p => (p, entryD A p.1 p.2)) := zip_self_map _ _
    unfold scatterDense
    rw [hzip]
    have hfold := scatter_fold A n ((nonzeroIdx A).map (fun p => (p, entryD A p.1 p.2)))
      (zeroMat n n)
      (by simp [zeroMat])
      (by
        intro row hr
        unfold zeroMat at hr
        rw [List.eq_of_mem_replicate hr]
        simp)
      (by
        intro pv hpv
        obtain ⟨p, hp, rfl⟩ := List.mem_map.mp hpv
        obtain ⟨a, b⟩ := p
        obtain ⟨m1, m2, m3⟩ := (mem_nonzeroIdx A a b).mp hp
        refine ⟨show a < n by omega, ?_, rfl⟩
        show b < n
        rw [List.getD_eq_getElem _ _ m1, hrect _ (List.getElem_mem m1)] at m2
        exact m2)
    obtain ⟨f1, f2, f3⟩ := hfold
    apply matrix_ext _ _ n f1 hlen f2 hrect
    intro a b ha hb
    rw [f3 a b]
    have hfst : ((nonzeroIdx A).map (fun p => (p, entryD A p.1 p.2))).map Prod.fst =
        nonzeroIdx A := by
      rw [List.map_map]
      exact List.map_id' _
    rw [hfst]
    by_cases hm : (a, b) ∈ nonzeroIdx A
    · rw [if_pos hm]
    · rw [if_neg hm, entryD_zeroMat]
      by_contra h0
      refine hm ((mem_nonzeroIdx A a b).mpr ⟨by omega, ?_, fun hz => h0 hz.symm⟩)
      rw [List.getD_eq_getElem _ _ (by omega), hrect _ (List.getElem_mem (by omega))]
      exact hb

/-- Witness for C6: a 2-by-2 matrix with two non-zero entries. -/
theorem sparse_conversion_round_trip_witness :
    (([[(0 : ℚ), 5], [3, 0]] : List (List ℚ)).length = 2
      ∧ ∀ row ∈ ([[(0 : ℚ), 5], [3, 0]] : List (List ℚ)), row.length = 2)
    ∧ (nonzeroIdx [[(0 : ℚ), 5], [3, 0]]).length = countNonzero [[(0 : ℚ), 5], [3, 0]]
    ∧ (gatherVals [[(0 : ℚ), 5], [3, 0]] (nonzeroIdx [[(0 : ℚ), 5], [3, 0]])).length =
        countNonzero [[(0 : ℚ), 5], [3, 0]]
    ∧ scatterDense 2 2 (nonzeroIdx [[(0 : ℚ), 5], [3, 0]])
        (gatherVals [[(0 : ℚ), 5], [3, 0]] (nonzeroIdx [[(0 : ℚ), 5], [3, 0]])) =
        [[(0 : ℚ), 5], [3, 0]] :=
  ⟨⟨by decide, by decide⟩,
   sparse_conversion_round_trip [[(0 : ℚ), 5], [3, 0]] 2 (by decide) (by decide)⟩

end DynamicGCE
